import Mathlib

/-!
A verification development for the DA Form 2404 stamping core of
`src/api/src/python/index.py` (MNG Inventory System).

The Python source is embedded shallowly:
* Python strings are `List Char` (`Str`); `str.strip`, `str.rstrip`,
  `str.split`, `str.splitlines` are modelled directly;
* `reportlab.pdfmetrics.stringWidth` for a fixed font and size is the
  sum of per-character widths `cw : Char → ℤ` (simple-font widths add);
* JSON-shaped dict values are the inductive `PyVal`, dicts are
  association lists with `dict.get` semantics;
* code that can raise (`.strip()` on a non-string, slicing an `int`,
  indexing an empty page list) returns `Except Unit _`;
* loops are fuel-indexed workers whose fuel is the length of the
  shrinking argument, which every iteration strictly decreases.
-/

deriving instance DecidableEq for Except

/-- Python strings, modelled as lists of characters. -/
abbrev Str := List Char

/-- Embed a Lean string literal into the model type. -/
def str (s : String) : Str := s.data

/-- The ASCII whitespace characters recognised by Python's default
`split`/`strip` (space, tab, newline, carriage return, vertical tab,
form feed). -/
def isWS (c : Char) : Bool :=
  c == ' ' || c == '\t' || c == '\n' || c == '\r' ||
  c == Char.ofNat 11 || c == Char.ofNat 12

/-- Python `s.strip()`: drop leading and trailing whitespace. -/
def pyStrip (l : Str) : Str := (l.dropWhile isWS).rdropWhile isWS

/-- Python `s.rstrip()`: drop trailing whitespace. -/
def pyRStrip (l : Str) : Str := l.rdropWhile isWS

/-- Model of `pdfmetrics.stringWidth(s, font, size)` for the fixed font and size
in use: glyph widths of a simple font add, so the measured width is the
sum of the per-character widths `cw`. -/
def sw (cw : Char → ℤ) (l : Str) : ℤ := (l.map cw).sum

/-- Fuel-indexed worker for Python `text.split()`: split on whitespace
runs, dropping empty chunks.  Fuel at least the length of the input is
sufficient, since every recursive call strictly shortens the input. -/
def pySplitF : ℕ → Str → List Str
  | 0, _ => []
  | _ + 1, [] => []
  | fuel + 1, c :: cs =>
    if isWS c then pySplitF fuel cs
    else
      let w := (c :: cs).takeWhile (fun x => !isWS x)
      w :: pySplitF fuel ((c :: cs).drop w.length)

/-- Python `text.split()` (line 113: `words = (text or "").split()`;
`("" or "")` also splits to `[]`). -/
def pySplit (l : Str) : List Str := pySplitF l.length l

/-- The loop of `_wrap_to_width` (lines 114-124): greedily accumulate
words into `cur`; when the candidate `(cur + " " + w).strip()` exceeds
`max_width`, flush the nonempty `cur` into `lines` and restart from
`w`; after the last word, flush the nonempty `cur`. -/
def wrapGo (cw : Char → ℤ) (maxW : ℤ) : Str → List Str → List Str → List Str
  | cur, lines, [] => if cur = [] then lines else lines ++ [cur]
  | cur, lines, w :: ws =>
    let test := pyStrip (cur ++ ' ' :: w)
    if sw cw test ≤ maxW then wrapGo cw maxW test lines ws
    else wrapGo cw maxW w (if cur = [] then lines else lines ++ [cur]) ws

/-- Model of `_wrap_to_width(text, max_width, font, size)`; the font and size
arguments are folded into the per-character width function `cw`. -/
def wrapToWidth (cw : Char → ℤ) (maxW : ℤ) (text : Str) : List Str :=
  wrapGo cw maxW [] [] (pySplit text)

/-- The ellipsis character `…` (U+2026). -/
def ellC : Char := '…'

/-- The ellipsis suffix `" …"` used by `_draw_remarks_list` (line 162). -/
def ellS : Str := [' ', ellC]

/-- Fuel-indexed worker for the character-dropping loop (lines 163-164):
`while last and stringWidth(last + " …") > max_width:
   last = last[:-1].rstrip()`.
Fuel at least the length of `last` is sufficient, since every iteration
strictly shortens `last`. -/
def shrinkF (cw : Char → ℤ) (maxW : ℤ) : ℕ → Str → Str
  | 0, last => last
  | fuel + 1, last =>
    if last = [] then last
    else if sw cw (last ++ ellS) ≤ maxW then last
    else shrinkF cw maxW fuel (pyRStrip last.dropLast)

/-- The truncation loop of `_draw_remarks_list`, run to completion. -/
def shrinkLast (cw : Char → ℤ) (maxW : ℤ) (last : Str) : Str :=
  shrinkF cw maxW last.length last

/-- Line 165: `visible[-1] = (last + " …") if last else "…"`. -/
def fitLast (cw : Char → ℤ) (maxW : ℤ) (last : Str) : Str :=
  let l := shrinkLast cw maxW last
  if l = [] then [ellC] else l ++ ellS

/-- JSON-shaped Python values as they occur in request payloads and in
the resolved value dict: absent/`None`, a string, a list of strings, or
a number (any further truthy non-string value behaves like a nonzero
number with respect to the operations modelled here: truthiness, and
raising on `.strip()` or slicing). -/
inductive PyVal where
  | vNone
  | vStr (s : Str)
  | vList (xs : List Str)
  | vInt (n : ℤ)
deriving DecidableEq

/-- A Python dict with string keys.  The source only reads dicts through
`dict.get`, which maps an absent key to `None`, so an association list
looked up with `pyGet` is a faithful model. -/
abbrev PyDict := List (String × PyVal)

/-- Lookup `d.get(k)` (and `d.get(k, "")` composed with `or`-defaulting, which
treats `None` and an absent key alike). -/
def pyGet (d : PyDict) (k : String) : PyVal :=
  ((d.find? (fun p => p.1 == k)).map (fun p => p.2)).getD .vNone

/-- Python truthiness of the modelled values. -/
def truthy : PyVal → Bool
  | .vNone => false
  | .vStr s => !s.isEmpty
  | .vList xs => !xs.isEmpty
  | .vInt n => n != 0

/-- The table `FIELD_COORDS` (lines 46-61), in dict insertion order. -/
def FIELD_COORDS : List (String × ℤ × ℤ) :=
  [("ORGANIZATION", 90, 720),
   ("NOMENCLATURE", 390, 720),
   ("MODEL", 500, 720),
   ("SERIAL_NUMBER", 90, 690),
   ("TYPE_OF_INSPECTION", 490, 690),
   ("TM_NUMBER", 90, 660),
   ("TM_DATE", 220, 660),
   ("MILES", 190, 690),
   ("HOURS", 250, 690),
   ("ROUNDS", 290, 690),
   ("HOTSTARTS", 340, 690),
   ("DATE", 400, 690),
   ("TM2_NUMBER", 330, 660),
   ("TM2_DATE", 500, 660)]

/-- The constants of `REMARKS_TABLE` (lines 63-72). -/
def remarksX : ℤ := 110
def remarksYStart : ℤ := 364
def rowGapC : ℕ := 24
def maxRowsC : ℕ := 28
def maxWidthC : ℤ := 194
def wrapGapC : ℕ := 10

/-- The constant `size_pad = 2` (line 155). -/
def sizePadC : ℕ := 2

/-- Lines 156-157: `avail = max(row_gap - size_pad, 0)` and
`max_lines_in_row = max(1, 1 + (avail // max(wrap_gap, 1)))`.
On naturals, truncated subtraction is exactly `max(row_gap - size_pad, 0)`,
and `/` is Python's floor division on these nonnegative operands. -/
def maxLinesInRowC : ℕ := max 1 (1 + (rowGapC - sizePadC) / max wrapGapC 1)

/-- The table `PLACEHOLDERS` (lines 74-90). -/
def PLACEHOLDERS (k : String) : Str :=
  match k with
  | "ORGANIZATION" => str "<organization>"
  | "NOMENCLATURE" => str "<nomenclature>"
  | "MODEL" => str "<model>"
  | "SERIAL_NUMBER" => str "<serial>"
  | "MILES" => str "<miles>"
  | "HOURS" => str "<hours>"
  | "ROUNDS" => str "<rounds>"
  | "HOTSTARTS" => str "<hotstarts>"
  | "DATE" => str "<yyyy-mm-dd>"
  | "TYPE_OF_INSPECTION" => str "<inspectionType>"
  | "TM_NUMBER" => str "<tmNumber>"
  | "TM_DATE" => str "<tmDate>"
  | "TM2_NUMBER" => str "<tm2Number>"
  | "TM2_DATE" => str "<tm2Date>"
  | "REMARKS" => str "<remarks row>"
  | _ => []

/-- Lookup `LABELS.get(k, k)` (lines 92-109): labels differing from the key,
with the dict-lookup default `k` for the rest (the remaining table
entries map each key to itself). -/
def LABELS (k : String) : String :=
  match k with
  | "SERIAL_NUMBER" => "SERIAL NUMBER"
  | "TYPE_OF_INSPECTION" => "TYPE OF INSPECTION"
  | "TM_NUMBER" => "TM NUMBER"
  | "TM_DATE" => "TM DATE"
  | "TM2_NUMBER" => "TM2 NUMBER"
  | "TM2_DATE" => "TM2 DATE"
  | k => k

/-- Python `s.splitlines()` for line-feed separated text:
no line for the empty string, and no empty final chunk for a trailing
newline. -/
def splitLines (l : Str) : List Str :=
  match l with
  | [] => []
  | _ =>
    let parts := l.splitOn '\n'
    if l.getLast? = some '\n' then parts.dropLast else parts

/-- One row of the remarks table (lines 150-167): normalise embedded
line breaks to spaces and strip; wrap to the table width; if more lines
than fit in a row, keep the first `max_lines_in_row` and ellipsis-shrink
the last kept line. -/
def layoutRow (cw : Char → ℤ) (raw : Str) : List Str :=
  let line := pyStrip (raw.map (fun c => if c = '\n' then ' ' else c))
  let wrapped := wrapToWidth cw maxWidthC line
  if maxLinesInRowC < wrapped.length then
    let visible := wrapped.take maxLinesInRowC
    visible.dropLast ++ [fitLast cw maxWidthC (visible.getLastD [])]
  else wrapped

/-- Lines 128-135 of `_draw_remarks_list`: resolve the row list from the
value dict.  `REMARKS_LIST` is used as-is when present (iterating a
string yields its characters; slicing a nonzero number raises); when it
is `None`, a legacy `REMARKS` entry is accepted as a list, or as a
string that is stripped and split into nonempty lines (`if r`), with
`""`/`None` giving no rows and `.strip()` on a number raising. -/
def resolveDrawRows (values : PyDict) : Except Unit (List Str) :=
  match pyGet values "REMARKS_LIST" with
  | .vList xs => .ok xs
  | .vStr s => .ok (s.map (fun c => [c]))
  | .vInt n => if n = 0 then .ok [] else .error ()
  | .vNone =>
    match pyGet values "REMARKS" with
    | .vList xs => .ok xs
    | .vStr s =>
      let s' := pyStrip s
      .ok (if s' = [] then [] else (splitLines s').filter (fun r => r ≠ []))
    | .vNone => .ok []
    | .vInt n => if n = 0 then .ok [] else .error ()

/-- Model of `_draw_remarks_list` (lines 127-171), as the sequence of rendered
rows, each row being the visual lines drawn for one item: substitute a
single placeholder row when no rows remain (lines 136-137), keep only
the first `max_rows` items, and lay each out with `layoutRow`. -/
def drawRemarksList (cw : Char → ℤ) (values : PyDict) :
    Except Unit (List (List Str)) :=
  match resolveDrawRows values with
  | .error e => .error e
  | .ok rows0 =>
    let rows := if rows0 = [] then [PLACEHOLDERS "REMARKS"] else rows0
    .ok ((rows.take maxRowsC).map (layoutRow cw))

/-- Line 181: `(values.get(field) or "").strip()` — `None` and falsy
values give the empty string, a string is stripped, and a truthy
non-string raises `AttributeError` on `.strip()`. -/
def getStripped : PyVal → Except Unit Str
  | .vNone => .ok []
  | .vStr s => .ok (pyStrip s)
  | .vList xs => if xs = [] then .ok [] else .error ()
  | .vInt n => if n = 0 then .ok [] else .error ()

/-- The single-line field loop of `make_overlay` (lines 180-183): for
each field of `FIELD_COORDS`, draw the stripped value at its anchor if
it is nonempty. -/
def drawFields (values : PyDict) :
    List (String × ℤ × ℤ) → Except Unit (List (ℤ × ℤ × Str))
  | [] => .ok []
  | (f, x, y) :: rest =>
    match getStripped (pyGet values f) with
    | .error e => .error e
    | .ok val =>
      match drawFields values rest with
      | .error e => .error e
      | .ok tail => .ok (if val = [] then tail else (x, y, val) :: tail)

/-- The transient overlay page produced by `make_overlay`: its canvas
size, the remarks rows drawn by `_draw_remarks_list`, and the
single-line field strings drawn at their anchors. -/
structure Overlay where
  width : ℤ
  height : ℤ
  remarks : List (List Str)
  fields : List (ℤ × ℤ × Str)
deriving DecidableEq

/-- Model of `make_overlay(page_w, page_h, values)` (lines 173-187): draw the
remarks table, then the single-line fields, on a fresh canvas of the
given size. -/
def makeOverlay (cw : Char → ℤ) (w h : ℤ) (values : PyDict) :
    Except Unit Overlay :=
  match drawRemarksList cw values with
  | .error e => .error e
  | .ok remarks =>
    match drawFields values FIELD_COORDS with
    | .error e => .error e
    | .ok fields => .ok ⟨w, h, remarks, fields⟩

/-- One page of a document: its media-box size, an opaque identifier
for the template page's own content stream, and the overlays that have
been merged onto it (`merge_page` appends the overlay's content to the
page's). -/
structure Page where
  width : ℤ
  height : ℤ
  content : ℕ
  overlays : List Overlay
deriving DecidableEq

/-- Model of `page.merge_page(overlay.pages[0])` (line 199): the page keeps its
own content and gains the overlay's on top. -/
def mergePage (p : Page) (ov : Overlay) : Page :=
  { p with overlays := p.overlays ++ [ov] }

/-- Model of `stamp(template_bytes, values)` (lines 189-205): read the template
pages (`tmpl.pages[0]` raises on an empty document), build the overlay
at page 1's media-box size, merge it onto page 1, and copy every other
page unchanged, in order. -/
def stamp (cw : Char → ℤ) (tmpl : List Page) (values : PyDict) :
    Except Unit (List Page) :=
  match tmpl with
  | [] => .error ()
  | p0 :: rest =>
    match makeOverlay cw p0.width p0.height values with
    | .error e => .error e
    | .ok ov => .ok (mergePage p0 ov :: rest)

/-- The helper `pick(name, key)` inside `to_pdf_values` (lines 222-226): a string
value is stripped; any falsy result (absent, `None`, empty or blank
string, empty list, zero) becomes the field's placeholder; any truthy
non-string value is passed through unchanged. -/
def pick (payload : PyDict) (name : String) (key : String) : PyVal :=
  match pyGet payload name with
  | .vStr s => if pyStrip s = [] then .vStr (PLACEHOLDERS key) else .vStr (pyStrip s)
  | v => if truthy v then v else .vStr (PLACEHOLDERS key)

/-- Line 247: `payload.get("date") or datetime.now(timezone.utc).strftime("%Y-%m-%d")`.
The clock reading is made an explicit parameter `now`. -/
def dateVal (payload : PyDict) (now : Str) : PyVal :=
  if truthy (pyGet payload "date") then pyGet payload "date" else .vStr now

/-- Lines 228-236: the `REMARKS_LIST` entry.  An explicit `remarksList`
is used as-is; otherwise a legacy `remarks` list is used, or a legacy
`remarks` string is split into lines with blank-after-trim lines
dropped; otherwise a single placeholder row. -/
def remarksListVal (payload : PyDict) : PyVal :=
  match pyGet payload "remarksList" with
  | .vNone =>
    match pyGet payload "remarks" with
    | .vList xs => .vList xs
    | .vStr s => .vList ((splitLines s).filter (fun r => pyStrip r ≠ []))
    | _ => .vList [PLACEHOLDERS "REMARKS"]
  | v => v

/-- Model of `to_pdf_values(payload)` (lines 215-254), with the clock reading
`now` explicit.  In labels mode every field maps to its label and the
remarks list is a fixed two-row sample; otherwise each field is
resolved with `pick`, except `DATE` (current date fallback) and
`REMARKS_LIST`. -/
def to_pdf_values (payload : PyDict) (now : Str) : PyDict :=
  if truthy (pyGet payload "_labels") then
    (FIELD_COORDS.map (fun fc => (fc.1, PyVal.vStr (str (LABELS fc.1)))))
      ++ [("REMARKS", PyVal.vStr (str (LABELS "REMARKS"))),
          ("REMARKS_LIST", PyVal.vList [str "REMARKS", str "REMARKS (row 2)"])]
  else
    [("ORGANIZATION", pick payload "organization" "ORGANIZATION"),
     ("NOMENCLATURE", pick payload "nomenclature" "NOMENCLATURE"),
     ("MODEL", pick payload "model" "MODEL"),
     ("SERIAL_NUMBER", pick payload "serial" "SERIAL_NUMBER"),
     ("MILES", pick payload "miles" "MILES"),
     ("HOURS", pick payload "hours" "HOURS"),
     ("ROUNDS", pick payload "rounds" "ROUNDS"),
     ("HOTSTARTS", pick payload "hotstarts" "HOTSTARTS"),
     ("DATE", dateVal payload now),
     ("TYPE_OF_INSPECTION", pick payload "inspectionType" "TYPE_OF_INSPECTION"),
     ("TM_NUMBER", pick payload "tmNumber" "TM_NUMBER"),
     ("TM_DATE", pick payload "tmDate" "TM_DATE"),
     ("TM2_NUMBER", pick payload "tm2Number" "TM2_NUMBER"),
     ("TM2_DATE", pick payload "tm2Date" "TM2_DATE"),
     ("REMARKS_LIST", remarksListVal payload)]

/-- The stamping pipeline of `lambda_handler` (lines 367-368):
`values = to_pdf_values(payload); pdf_bytes = stamp(tmpl, values)`. -/
def stampPipeline (cw : Char → ℤ) (tmpl : List Page) (payload : PyDict)
    (now : Str) : Except Unit (List Page) :=
  stamp cw tmpl (to_pdf_values payload now)

/-- Line 348: `form_id = (payload.get("formId") or str(uuid.uuid4())).strip()`,
with the random UUID string an explicit parameter; `.strip()` raises on
a truthy non-string. -/
def handlerFormId (payload : PyDict) (uuid : Str) : Except Unit Str :=
  match pyGet payload "formId" with
  | .vStr s => if s = [] then .ok (pyStrip uuid) else .ok (pyStrip s)
  | .vNone => .ok (pyStrip uuid)
  | .vList xs => if xs = [] then .ok (pyStrip uuid) else .error ()
  | .vInt n => if n = 0 then .ok (pyStrip uuid) else .error ()

/-- Line 372: `filename = f"DA2404_{form_id}.pdf"`. -/
def mkFilename (form_id : Str) : Str := str "DA2404_" ++ form_id ++ str ".pdf"

/-- A resolved value dict is a `ValueRecord` in the sense of the data
model: every single-line field's value is a string or absent, and the
remarks value is a list of strings. -/
def valuesWF (values : PyDict) : Bool :=
  FIELD_COORDS.all (fun fc =>
    match pyGet values fc.1 with
    | .vNone => true
    | .vStr _ => true
    | _ => false) &&
  (match pyGet values "REMARKS_LIST" with
   | .vList _ => true
   | _ => false)

/-- The 13 single-line fields resolved through `pick`, with their input
keys (`DATE` is resolved differently, see `dateVal`). -/
def pickFields : List (String × String) :=
  [("ORGANIZATION", "organization"),
   ("NOMENCLATURE", "nomenclature"),
   ("MODEL", "model"),
   ("SERIAL_NUMBER", "serial"),
   ("MILES", "miles"),
   ("HOURS", "hours"),
   ("ROUNDS", "rounds"),
   ("HOTSTARTS", "hotstarts"),
   ("TYPE_OF_INSPECTION", "inspectionType"),
   ("TM_NUMBER", "tmNumber"),
   ("TM_DATE", "tmDate"),
   ("TM2_NUMBER", "tm2Number"),
   ("TM2_DATE", "tm2Date")]

/-! ### Whitespace and stripping lemmas -/

/-- A word, in Python's `split` sense: no whitespace characters. -/
def noWS (l : Str) : Prop := ∀ c ∈ l, isWS c = false

theorem dropWhile_eq_self_of_noWS {l : Str} (h : noWS l) :
    l.dropWhile isWS = l := by
  cases l with
  | nil => rfl
  | cons a t => exact List.dropWhile_cons_of_neg (by simp [h a (by simp)])

theorem rdropWhile_eq_self_of_noWS {l : Str} (h : noWS l) :
    l.rdropWhile isWS = l := by
  rcases l.eq_nil_or_concat with h1 | ⟨L, b, h1⟩
  · simp [h1]
  · subst h1
    rw [List.concat_eq_append]
    exact List.rdropWhile_concat_neg _ _ _ (by simp [h b (by simp)])

theorem pyStrip_of_noWS {l : Str} (h : noWS l) : pyStrip l = l := by
  rw [pyStrip, dropWhile_eq_self_of_noWS h, rdropWhile_eq_self_of_noWS h]

theorem pyStrip_nil : pyStrip [] = [] := rfl

/-- A trimmed nonempty string starts with a non-whitespace character. -/
theorem trimmed_head {a : Char} {t : Str} (h : pyStrip (a :: t) = a :: t) :
    isWS a = false := by
  by_contra hws
  have hws' : isWS a = true := by
    cases ha : isWS a
    · exact absurd ha hws
    · rfl
  have h1 : (a :: t).dropWhile isWS = t.dropWhile isWS :=
    List.dropWhile_cons_of_pos hws'
  have h2 : (pyStrip (a :: t)).length ≤ (t.dropWhile isWS).length := by
    rw [pyStrip, h1]
    exact List.IsPrefix.length_le ( List.rdropWhile_prefix isWS _)
  have h3 : (t.dropWhile isWS).length ≤ t.length :=
    (List.dropWhile_suffix isWS).length_le
  rw [h] at h2
  simp only [List.length_cons] at h2
  omega

/-- A trimmed string is unchanged by a further leading-whitespace drop. -/
theorem trimmed_dropWhile {l : Str} (h : pyStrip l = l) :
    l.dropWhile isWS = l := by
  cases l with
  | nil => rfl
  | cons a t => exact List.dropWhile_cons_of_neg (by simp [trimmed_head h])

/-- A trimmed nonempty string ends with a non-whitespace character. -/
theorem trimmed_concat {l : Str} (h : pyStrip l = l) (hne : l ≠ []) :
    ∃ L b, l = L ++ [b] ∧ isWS b = false := by
  rcases l.eq_nil_or_concat with h1 | ⟨L, b, h1⟩
  · exact absurd h1 hne
  · rw [List.concat_eq_append] at h1
    refine ⟨L, b, h1, ?_⟩
    by_contra hws
    have hws' : isWS b = true := by
      cases hb : isWS b
      · exact absurd hb hws
      · rfl
    have h2 : pyStrip l = (l.dropWhile isWS).rdropWhile isWS := rfl
    have h3 : l.dropWhile isWS = l := trimmed_dropWhile h
    rw [h3] at h2
    subst h1
    rw [List.rdropWhile_concat_pos _ _ _ hws'] at h2
    have h4 : (List.rdropWhile isWS L).length ≤ L.length :=
      ( List.rdropWhile_prefix isWS L).length_le
    rw [h] at h2
    have h6 := congrArg List.length h2
    simp only [List.length_append, List.length_cons, List.length_nil] at h6
    omega

/-- The candidate test string of the wrap loop:
`(cur + " " + w).strip()` is `w` when `cur` is empty, and
`cur ++ " " ++ w` when `cur` is a nonempty trimmed string and `w` a
nonempty word. -/
theorem pyStrip_test {cur w : Str} (hcur : pyStrip cur = cur)
    (hw : noWS w) (hw0 : w ≠ []) :
    pyStrip (cur ++ ' ' :: w) =
      if cur = [] then w else cur ++ ' ' :: w := by
  rcases w.eq_nil_or_concat with hw1 | ⟨W, b, hw1⟩
  · exact absurd hw1 hw0
  · rw [List.concat_eq_append] at hw1
    have hb : isWS b = false := hw b (by rw [hw1]; simp)
    by_cases hc : cur = []
    · subst hc
      rw [if_pos rfl, List.nil_append]
      show ((' ' :: w).dropWhile isWS).rdropWhile isWS = w
      have h1 : (' ' :: w).dropWhile isWS = w.dropWhile isWS :=
        List.dropWhile_cons_of_pos (by simp [isWS])
      rw [h1, dropWhile_eq_self_of_noWS hw, rdropWhile_eq_self_of_noWS hw]
    · rw [if_neg hc]
      obtain ⟨a, t, ha⟩ : ∃ a t, cur = a :: t := by
        cases cur with
        | nil => exact absurd rfl hc
        | cons a t => exact ⟨a, t, rfl⟩
      have hahd : isWS a = false := trimmed_head (ha ▸ hcur)
      rw [pyStrip]
      have h1 : (cur ++ ' ' :: w).dropWhile isWS = cur ++ ' ' :: w := by
        rw [ha]
        exact List.dropWhile_cons_of_neg (by simp [hahd])
      rw [h1]
      have h2 : cur ++ ' ' :: w = (cur ++ ' ' :: W) ++ [b] := by
        rw [hw1]; simp
      rw [h2]
      rw [List.rdropWhile_concat_neg _ _ _ (by simp [hb])]

/-! ### Words produced by `split` -/

theorem pySplitF_words : ∀ (fuel : ℕ) (l : Str), l.length ≤ fuel →
    ∀ w ∈ pySplitF fuel l, w ≠ [] ∧ noWS w := by
  intro fuel
  induction fuel with
  | zero =>
    intro l hl w hw
    simp [pySplitF] at hw
  | succ fuel ih =>
    intro l hl w hw
    cases l with
    | nil => simp [pySplitF] at hw
    | cons c cs =>
      simp only [List.length_cons] at hl
      rw [pySplitF] at hw
      by_cases hc : isWS c
      · rw [if_pos hc] at hw
        exact ih cs (by omega) w hw
      · rw [if_neg hc] at hw
        have hcb : isWS c = false := by
          cases h : isWS c
          · rfl
          · exact absurd h hc
        have htw : (c :: cs).takeWhile (fun x => !isWS x) =
            c :: cs.takeWhile (fun x => !isWS x) :=
          List.takeWhile_cons_of_pos (by simp [hcb])
        simp only [List.mem_cons] at hw
        rcases hw with hw | hw
        · subst hw
          constructor
          · rw [htw]; exact List.cons_ne_nil _ _
          · intro x hx
            have := List.mem_takeWhile_imp hx
            simpa using this
        · have hlen : ((c :: cs).takeWhile (fun x => !isWS x)).length ≥ 1 := by
            rw [htw]; simp
          have hdrop :
              (((c :: cs).drop ((c :: cs).takeWhile (fun x => !isWS x)).length)).length ≤ fuel := by
            rw [List.length_drop]
            simp only [List.length_cons]
            omega
          exact ih _ hdrop w hw

theorem pySplit_words {l : Str} : ∀ w ∈ pySplit l, w ≠ [] ∧ noWS w :=
  pySplitF_words l.length l le_rfl

/-! ### Measured-width lemmas -/

theorem sw_append (cw : Char → ℤ) (l₁ l₂ : Str) :
    sw cw (l₁ ++ l₂) = sw cw l₁ + sw cw l₂ := by
  simp [sw]

theorem sw_cons (cw : Char → ℤ) (c : Char) (l : Str) :
    sw cw (c :: l) = cw c + sw cw (l) := by
  simp [sw]

theorem sw_nonneg {cw : Char → ℤ} (hcw : ∀ c, 0 ≤ cw c) (l : Str) :
    0 ≤ sw cw l := by
  refine List.sum_nonneg ?_
  intro x hx
  obtain ⟨c, _, rfl⟩ := List.mem_map.mp hx
  exact hcw c

/-! ### Wrap-loop invariants -/

/-- Lines already flushed are contained in the final wrap result. -/
theorem wrapGo_mono (cw : Char → ℤ) (maxW : ℤ) :
    ∀ (ws : List Str) (cur : Str) (lines : List Str) (l : Str),
    l ∈ lines → l ∈ wrapGo cw maxW cur lines ws := by
  intro ws
  induction ws with
  | nil =>
    intro cur lines l hl
    rw [wrapGo]
    by_cases hc : cur = []
    · rw [if_pos hc]; exact hl
    · rw [if_neg hc]; exact List.mem_append_left _ hl
  | cons w ws ih =>
    intro cur lines l hl
    rw [wrapGo]
    by_cases ht : sw cw (pyStrip (cur ++ ' ' :: w)) ≤ maxW
    · rw [if_pos ht]; exact ih _ _ _ hl
    · rw [if_neg ht]
      refine ih _ _ _ ?_
      by_cases hc : cur = []
      · rw [if_pos hc]; exact hl
      · rw [if_neg hc]; exact List.mem_append_left _ hl

/-- Soundness of the greedy accumulation: every emitted line either
fits `maxW` or is one of the words in `W`. -/
theorem wrapGo_sound (cw : Char → ℤ) (maxW : ℤ) (W : List Str) :
    ∀ (ws : List Str) (cur : Str) (lines : List Str),
    (∀ w ∈ ws, w ≠ [] ∧ noWS w) →
    (∀ w ∈ ws, w ∈ W) →
    pyStrip cur = cur →
    (cur = [] ∨ sw cw cur ≤ maxW ∨ cur ∈ W) →
    (∀ l ∈ lines, sw cw l ≤ maxW ∨ l ∈ W) →
    ∀ l ∈ wrapGo cw maxW cur lines ws, sw cw l ≤ maxW ∨ l ∈ W := by
  intro ws
  induction ws with
  | nil =>
    intro cur lines _ _ _ hcurP hlines l hl
    rw [wrapGo] at hl
    by_cases hc : cur = []
    · rw [if_pos hc] at hl; exact hlines l hl
    · rw [if_neg hc] at hl
      rcases List.mem_append.mp hl with h | h
      · exact hlines l h
      · have : l = cur := by simpa using h
        subst this
        rcases hcurP with h1 | h1 | h1
        · exact absurd h1 hc
        · exact Or.inl h1
        · exact Or.inr h1
  | cons w ws ih =>
    intro cur lines hws hwsW hcur hcurP hlines l hl
    have hw : w ≠ [] ∧ noWS w := hws w (by simp)
    have htest : pyStrip (cur ++ ' ' :: w) =
        if cur = [] then w else cur ++ ' ' :: w :=
      pyStrip_test hcur hw.2 hw.1
    have hwstail : ∀ v ∈ ws, v ≠ [] ∧ noWS v := fun v hv => hws v (by simp [hv])
    have hwsWtail : ∀ v ∈ ws, v ∈ W := fun v hv => hwsW v (by simp [hv])
    rw [wrapGo] at hl
    by_cases ht : sw cw (pyStrip (cur ++ ' ' :: w)) ≤ maxW
    · rw [if_pos ht] at hl
      refine ih _ _ hwstail hwsWtail ?_ (Or.inr (Or.inl ht)) hlines l hl
      rw [htest]
      by_cases hc : cur = []
      · rw [if_pos hc]; exact pyStrip_of_noWS hw.2
      · rw [if_neg hc]
        rw [htest, if_neg hc]
    · rw [if_neg ht] at hl
      refine ih _ _ hwstail hwsWtail (pyStrip_of_noWS hw.2)
        (Or.inr (Or.inr (hwsW w (by simp)))) ?_ l hl
      intro x hx
      by_cases hc : cur = []
      · rw [if_pos hc] at hx; exact hlines x hx
      · rw [if_neg hc] at hx
        rcases List.mem_append.mp hx with h | h
        · exact hlines x h
        · have : x = cur := by simpa using h
          subst this
          rcases hcurP with h1 | h1 | h1
          · exact absurd h1 hc
          · exact Or.inl h1
          · exact Or.inr h1

/-- Once the current accumulation is a lone oversized word, it is
flushed whole: the next candidate only extends it, so the loop emits it
as its own line. -/
theorem wrapGo_cur_big (cw : Char → ℤ) (maxW : ℤ) (hcw : ∀ c, 0 ≤ cw c) :
    ∀ (ws : List Str) (cur : Str) (lines : List Str),
    (∀ w ∈ ws, w ≠ [] ∧ noWS w) →
    cur ≠ [] → noWS cur → maxW < sw cw cur →
    cur ∈ wrapGo cw maxW cur lines ws := by
  intro ws
  cases ws with
  | nil =>
    intro cur lines _ hne _ _
    rw [wrapGo, if_neg hne]
    simp
  | cons w ws =>
    intro cur lines hws hne hnws hbig
    have hw : w ≠ [] ∧ noWS w := hws w (by simp)
    have htest : pyStrip (cur ++ ' ' :: w) = cur ++ ' ' :: w := by
      rw [pyStrip_test (pyStrip_of_noWS hnws) hw.2 hw.1, if_neg hne]
    have hgrow : sw cw cur ≤ sw cw (cur ++ ' ' :: w) := by
      rw [sw_append, sw_cons]
      have h1 := hcw ' '
      have h2 := sw_nonneg hcw w
      omega
    have hnofit : ¬ sw cw (pyStrip (cur ++ ' ' :: w)) ≤ maxW := by
      rw [htest]; omega
    rw [wrapGo, if_neg hnofit, if_neg hne]
    exact wrapGo_mono cw maxW ws w (lines ++ [cur]) cur (by simp)

/-- Every word that alone exceeds the width bound appears, whole, as
one of the emitted lines. -/
theorem wrapGo_oversized (cw : Char → ℤ) (maxW : ℤ) (hcw : ∀ c, 0 ≤ cw c) :
    ∀ (ws : List Str) (cur : Str) (lines : List Str),
    (∀ w ∈ ws, w ≠ [] ∧ noWS w) →
    pyStrip cur = cur →
    ∀ w ∈ ws, maxW < sw cw w → w ∈ wrapGo cw maxW cur lines ws := by
  intro ws
  induction ws with
  | nil =>
    intro cur lines _ _ w hw
    simp at hw
  | cons v ws ih =>
    intro cur lines hws hcur w hw hbig
    have hv : v ≠ [] ∧ noWS v := hws v (by simp)
    have hwstail : ∀ u ∈ ws, u ≠ [] ∧ noWS u := fun u hu => hws u (by simp [hu])
    have htest : pyStrip (cur ++ ' ' :: v) =
        if cur = [] then v else cur ++ ' ' :: v :=
      pyStrip_test hcur hv.2 hv.1
    rcases List.mem_cons.mp hw with rfl | hwtail
    · -- the oversized word is the next word processed
      have hnofit : ¬ sw cw (pyStrip (cur ++ ' ' :: w)) ≤ maxW := by
        rw [htest]
        by_cases hc : cur = []
        · rw [if_pos hc]; omega
        · rw [if_neg hc]
          have hgrow : sw cw w ≤ sw cw (cur ++ ' ' :: w) := by
            rw [sw_append, sw_cons]
            have h1 := hcw ' '
            have h2 := sw_nonneg hcw cur
            omega
          omega
      rw [wrapGo, if_neg hnofit]
      exact wrapGo_cur_big cw maxW hcw ws w _ hwstail hv.1 hv.2 hbig
    · -- the oversized word is further down; both branches recurse
      rw [wrapGo]
      by_cases ht : sw cw (pyStrip (cur ++ ' ' :: v)) ≤ maxW
      · rw [if_pos ht]
        refine ih _ _ hwstail ?_ w hwtail hbig
        rw [htest]
        by_cases hc : cur = []
        · rw [if_pos hc]; exact pyStrip_of_noWS hv.2
        · rw [if_neg hc]
          rw [htest, if_neg hc]
      · rw [if_neg ht]
        exact ih _ _ hwstail (pyStrip_of_noWS hv.2) w hwtail hbig

/-! ### Shrink-loop lemmas -/

/-- Running the truncation loop with fuel at least the length of the
input reaches a state where the loop guard is false: the loop of lines
163-164 terminates within `length` iterations. -/
theorem shrinkF_final (cw : Char → ℤ) (maxW : ℤ) :
    ∀ (fuel : ℕ) (last : Str), last.length ≤ fuel →
    shrinkF cw maxW fuel last = [] ∨
      sw cw (shrinkF cw maxW fuel last ++ ellS) ≤ maxW := by
  intro fuel
  induction fuel with
  | zero =>
    intro last hl
    have : last = [] := List.eq_nil_of_length_eq_zero (by omega)
    subst this
    exact Or.inl rfl
  | succ fuel ih =>
    intro last hl
    rw [shrinkF]
    by_cases h0 : last = []
    · rw [if_pos h0]; exact Or.inl h0
    · rw [if_neg h0]
      by_cases hfit : sw cw (last ++ ellS) ≤ maxW
      · rw [if_pos hfit]; exact Or.inr hfit
      · rw [if_neg hfit]
        refine ih _ ?_
        have h1 : (pyRStrip last.dropLast).length ≤ last.dropLast.length :=
          ( List.rdropWhile_prefix isWS _).length_le
        have h2 : last.dropLast.length = last.length - 1 := List.length_dropLast last
        have h3 : 1 ≤ last.length := by
          cases last with
          | nil => exact absurd rfl h0
          | cons a t => simp
        omega

/-- The truncation loop only ever shortens from the right: its result
is a prefix of its input. -/
theorem shrinkF_shortens (cw : Char → ℤ) (maxW : ℤ) :
    ∀ (fuel : ℕ) (last : Str), shrinkF cw maxW fuel last <+: last := by
  intro fuel
  induction fuel with
  | zero => intro last; exact List.prefix_refl last
  | succ fuel ih =>
    intro last
    rw [shrinkF]
    by_cases h0 : last = []
    · rw [if_pos h0]
    · rw [if_neg h0]
      by_cases hfit : sw cw (last ++ ellS) ≤ maxW
      · rw [if_pos hfit]
      · rw [if_neg hfit]
        refine (ih _).trans ?_
        exact ( List.rdropWhile_prefix isWS _).trans ( List.dropLast_prefix last)

/-- In a box too narrow for the ellipsis glyph itself, the loop strips
`last` down to the empty string. -/
theorem shrinkF_narrow {cw : Char → ℤ} {maxW : ℤ} (hcw : ∀ c, 0 ≤ cw c)
    (hn : maxW < cw ellC) :
    ∀ (fuel : ℕ) (last : Str), last.length ≤ fuel →
    shrinkF cw maxW fuel last = [] := by
  intro fuel
  induction fuel with
  | zero =>
    intro last hl
    have h0 : last = [] := List.eq_nil_of_length_eq_zero (by omega)
    subst h0
    rfl
  | succ fuel ih =>
    intro last hl
    rw [shrinkF]
    by_cases h0 : last = []
    · rw [if_pos h0]; exact h0
    · rw [if_neg h0]
      have hfit : ¬ sw cw (last ++ ellS) ≤ maxW := by
        rw [sw_append]
        have h1 : sw cw ellS = cw ' ' + cw ellC := by simp [sw, ellS]
        have h2 := sw_nonneg hcw last
        have h3 := hcw ' '
        omega
      rw [if_neg hfit]
      refine ih _ ?_
      have h1 : (pyRStrip last.dropLast).length ≤ last.dropLast.length :=
        ( List.rdropWhile_prefix isWS _).length_le
      have h2 : last.dropLast.length = last.length - 1 := List.length_dropLast last
      have h3 : 1 ≤ last.length := by
        cases last with
        | nil => exact absurd rfl h0
        | cons a t => simp
      omega

/-! ### Claim theorems: the line wrapper and the row truncator -/

/-- C3.  For every width assignment (any font and size give nonnegative
glyph widths), every `maxWidth` and every text, each line produced by
`_wrap_to_width` either measures within `maxWidth` or is literally one
of the whitespace-separated words of the text that alone exceeds
`maxWidth`; moreover every such oversized word is emitted, unsplit, as
its own line. -/
theorem wrap_width_or_oversized_word (cw : Char → ℤ) (maxW : ℤ) (text : Str)
    (hcw : ∀ c, 0 ≤ cw c) :
    (∀ l ∈ wrapToWidth cw maxW text,
        sw cw l ≤ maxW ∨ (l ∈ pySplit text ∧ maxW < sw cw l)) ∧
    (∀ w ∈ pySplit text, maxW < sw cw w → w ∈ wrapToWidth cw maxW text) := by
  constructor
  · intro l hl
    have h := wrapGo_sound cw maxW (pySplit text) (pySplit text) [] []
      (fun w hw => pySplit_words w hw) (fun w hw => hw) pyStrip_nil
      (Or.inl rfl) (by intro x hx; simp at hx) l hl
    rcases h with h | h
    · exact Or.inl h
    · by_cases hfit : sw cw l ≤ maxW
      · exact Or.inl hfit
      · exact Or.inr ⟨h, by omega⟩
  · intro w hw hbig
    exact wrapGo_oversized cw maxW hcw (pySplit text) [] []
      (fun u hu => pySplit_words u hu) pyStrip_nil w hw hbig

/-- Witness for C3 at a concrete input: with unit glyph widths and
`maxWidth = 3`, `"aaaa bb"` wraps to the oversized lone word `"aaaa"`
and the fitting line `"bb"`. -/
theorem wrap_width_or_oversized_word_witness :
    (∀ l ∈ wrapToWidth (fun _ => (1:ℤ)) 3 (str "aaaa bb"),
        sw (fun _ => (1:ℤ)) l ≤ 3 ∨
          (l ∈ pySplit (str "aaaa bb") ∧ 3 < sw (fun _ => (1:ℤ)) l)) ∧
    (∀ w ∈ pySplit (str "aaaa bb"), 3 < sw (fun _ => (1:ℤ)) w →
        w ∈ wrapToWidth (fun _ => (1:ℤ)) 3 (str "aaaa bb")) :=
  wrap_width_or_oversized_word (fun _ => (1:ℤ)) 3 (str "aaaa bb")
    (fun c => by norm_num)

/-- C5, amended.  The ellipsis-fitting result is either the lone
ellipsis (the loop consumed the whole line), or a nonempty prefix of
the input line followed by the `" …"` suffix, in which case its
measured width is within `maxWidth`.  (The claim's unconditional width
bound fails in the lone-ellipsis case, see the counterexample.) -/
theorem fitLast_prefix_or_ellipsis (cw : Char → ℤ) (maxW : ℤ) (last : Str) :
    (fitLast cw maxW last = [ellC] ∧ shrinkLast cw maxW last = []) ∨
    (∃ p, p <+: last ∧ p ≠ [] ∧ fitLast cw maxW last = p ++ ellS ∧
      sw cw (p ++ ellS) ≤ maxW) := by
  have hfin := shrinkF_final cw maxW last.length last le_rfl
  have hpre := shrinkF_shortens cw maxW last.length last
  by_cases h0 : shrinkLast cw maxW last = []
  · exact Or.inl ⟨by rw [fitLast]; simp [h0], h0⟩
  · refine Or.inr ⟨shrinkLast cw maxW last, hpre, h0, by rw [fitLast]; simp [h0], ?_⟩
    rcases hfin with h | h
    · exact absurd h h0
    · exact h

/-- C5 counterexample: with every glyph 5 wide and `maxWidth = 1`, the
truncation of `"ab"` is the lone ellipsis, whose measured width 5
exceeds `maxWidth` — the claimed unconditional bound
`measuredWidth(result) ≤ maxWidth` is false. -/
theorem fitLast_width_counterexample :
    fitLast (fun _ => (5:ℤ)) 1 (str "ab") = [ellC] ∧
    ¬ sw (fun _ => (5:ℤ)) (fitLast (fun _ => (5:ℤ)) 1 (str "ab")) ≤ 1 := by
  decide

/-- C9.  The character-dropping loop reaches, within `length` steps
(the fuel of `shrinkLast`), a state falsifying its guard — so the
truncation step is a total function of its input — and in the
narrow-box case (`maxWidth` below the ellipsis glyph's own width) it
stops with the lone ellipsis. -/
theorem shrink_terminates_and_narrow (cw : Char → ℤ) (maxW : ℤ) (last : Str)
    (hcw : ∀ c, 0 ≤ cw c) :
    (shrinkLast cw maxW last = [] ∨
      sw cw (shrinkLast cw maxW last ++ ellS) ≤ maxW) ∧
    (maxW < cw ellC → fitLast cw maxW last = [ellC]) := by
  constructor
  · exact shrinkF_final cw maxW last.length last le_rfl
  · intro hn
    have h := shrinkF_narrow hcw hn last.length last le_rfl
    rw [fitLast]
    simp [shrinkLast] at h ⊢
    simp [h]

/-- Witness for C9 at a concrete input: every glyph 5 wide,
`maxWidth = 1`, line `"ab"`. -/
theorem shrink_terminates_and_narrow_witness :
    (shrinkLast (fun _ => (5:ℤ)) 1 (str "ab") = [] ∨
      sw (fun _ => (5:ℤ)) (shrinkLast (fun _ => (5:ℤ)) 1 (str "ab") ++ ellS) ≤ 1) ∧
    (1 < (5:ℤ) → fitLast (fun _ => (5:ℤ)) 1 (str "ab") = [ellC]) :=
  shrink_terminates_and_narrow (fun _ => (5:ℤ)) 1 (str "ab") (fun c => by norm_num)

/-! ### Claim theorems: the row table -/

/-- One laid-out row never exceeds `max_lines_in_row` visual lines:
either the wrap already fit, or exactly the first `max_lines_in_row`
lines are kept with the last one ellipsis-shrunk in place. -/
theorem layoutRow_length (cw : Char → ℤ) (raw : Str) :
    (layoutRow cw raw).length ≤ maxLinesInRowC := by
  rw [layoutRow]
  by_cases h : maxLinesInRowC <
      (wrapToWidth cw maxWidthC
        (pyStrip (raw.map (fun c => if c = '\n' then ' ' else c)))).length
  · rw [if_pos h]
    have h1 : 1 ≤ maxLinesInRowC := le_max_left 1 _
    simp only [List.length_append, List.length_dropLast, List.length_take,
      List.length_cons, List.length_nil]
    omega
  · rw [if_neg h]
    omega

/-- C4.  Whatever value dict reaches `_draw_remarks_list`, a successful
draw renders at most `max_rows` rows (excess items are dropped by the
slice), and each row renders at most
`max_lines_in_row = max(1, 1 + (row_gap − size_pad) // wrap_gap)`
visual lines. -/
theorem remarks_rows_and_lines_bounded (cw : Char → ℤ) (values : PyDict)
    (out : List (List Str)) (h : drawRemarksList cw values = .ok out) :
    out.length ≤ maxRowsC ∧ ∀ row ∈ out, row.length ≤ maxLinesInRowC := by
  rw [drawRemarksList] at h
  cases hr : resolveDrawRows values with
  | error e => rw [hr] at h; cases h
  | ok rows0 =>
    rw [hr] at h
    have hout : ((if rows0 = [] then [PLACEHOLDERS "REMARKS"] else rows0).take
        maxRowsC).map (layoutRow cw) = out := by
      cases h; rfl
    constructor
    · rw [← hout, List.length_map]
      exact List.length_take_le _ _
    · intro row hrow
      rw [← hout] at hrow
      obtain ⟨raw, _, rfl⟩ := List.mem_map.mp hrow
      exact layoutRow_length cw raw

/-- Witness for C4 at a concrete input. -/
theorem remarks_rows_and_lines_bounded_witness :
    ([[str "a"], [str "b"]] : List (List Str)).length ≤ maxRowsC ∧
    ∀ row ∈ ([[str "a"], [str "b"]] : List (List Str)),
      row.length ≤ maxLinesInRowC :=
  remarks_rows_and_lines_bounded (fun _ => 0)
    [("REMARKS_LIST", .vList [str "a", str "b"])]
    [[str "a"], [str "b"]] (by decide)

/-! ### Claim theorems: the document compositor -/

/-- The read `(values.get(field) or "").strip()` succeeds exactly on the values
a `ValueRecord` may hold at a single-line field. -/
theorem getStripped_ok {v : PyVal}
    (h : (match v with
          | .vNone => true
          | .vStr _ => true
          | _ => false) = true) :
    ∃ s, getStripped v = .ok s := by
  cases v with
  | vNone => exact ⟨[], rfl⟩
  | vStr s => exact ⟨pyStrip s, rfl⟩
  | vList xs => simp at h
  | vInt n => simp at h

/-- The single-line field loop succeeds on a well-formed value dict. -/
theorem drawFields_ok (values : PyDict) :
    ∀ (fcs : List (String × ℤ × ℤ)),
    (∀ fc ∈ fcs, (match pyGet values fc.1 with
                  | .vNone => true
                  | .vStr _ => true
                  | _ => false) = true) →
    ∃ r, drawFields values fcs = .ok r := by
  intro fcs
  induction fcs with
  | nil => intro _; exact ⟨[], rfl⟩
  | cons fc rest ih =>
    intro h
    obtain ⟨f, x, y⟩ := fc
    obtain ⟨val, hval⟩ := getStripped_ok (h (f, x, y) (by simp))
    obtain ⟨tail, htail⟩ := ih (fun u hu => h u (by simp [hu]))
    refine ⟨if val = [] then tail else (x, y, val) :: tail, ?_⟩
    rw [drawFields, hval, htail]

/-- C1.  For every template with at least one page and every resolved
value dict that is a `ValueRecord` (single-line fields hold strings or
are absent; the remarks value is a list), `stamp` succeeds, the output
has exactly the template's page count, and every page after page 1 is
carried into the output unchanged; only page 1 gains the overlay. -/
theorem stamp_preserves_pages (cw : Char → ℤ) (tmpl : List Page)
    (values : PyDict) (h1 : tmpl ≠ []) (h2 : valuesWF values = true) :
    ∃ out, stamp cw tmpl values = .ok out ∧
      out.length = tmpl.length ∧ out.tail = tmpl.tail := by
  cases tmpl with
  | nil => exact absurd rfl h1
  | cons p0 rest =>
    rw [valuesWF, Bool.and_eq_true] at h2
    obtain ⟨hfields, hremarks⟩ := h2
    -- the remarks resolution succeeds: REMARKS_LIST is a list
    obtain ⟨xs, hxs⟩ : ∃ xs, pyGet values "REMARKS_LIST" = .vList xs := by
      cases hv : pyGet values "REMARKS_LIST" with
      | vList xs => exact ⟨xs, rfl⟩
      | vNone => rw [hv] at hremarks; simp at hremarks
      | vStr s => rw [hv] at hremarks; simp at hremarks
      | vInt n => rw [hv] at hremarks; simp at hremarks
    have hrows : resolveDrawRows values = .ok xs := by
      rw [resolveDrawRows, hxs]
    have hdraw : drawRemarksList cw values =
        .ok (((if xs = [] then [PLACEHOLDERS "REMARKS"] else xs).take
          maxRowsC).map (layoutRow cw)) := by
      rw [drawRemarksList, hrows]
    obtain ⟨fields, hfok⟩ := drawFields_ok values FIELD_COORDS
      (fun fc hfc => by
        have := List.all_eq_true.mp hfields fc hfc
        exact this)
    refine ⟨mergePage p0 ⟨p0.width, p0.height,
      ((if xs = [] then [PLACEHOLDERS "REMARKS"] else xs).take
        maxRowsC).map (layoutRow cw), fields⟩ :: rest, ?_, ?_, ?_⟩
    · rw [stamp, makeOverlay, hdraw, hfok]
    · simp
    · simp

/-- Witness for C1: a two-page template and the resolved record of the
empty payload (every field resolves to its placeholder). -/
theorem stamp_preserves_pages_witness :
    ∃ out,
      stamp (fun _ => 0) [⟨612, 792, 0, []⟩, ⟨612, 792, 1, []⟩]
        (to_pdf_values [] (str "2026-10-12")) = .ok out ∧
      out.length =
        ([⟨612, 792, 0, []⟩, ⟨612, 792, 1, []⟩] : List Page).length ∧
      out.tail = ([⟨612, 792, 0, []⟩, ⟨612, 792, 1, []⟩] : List Page).tail :=
  stamp_preserves_pages (fun _ => 0) [⟨612, 792, 0, []⟩, ⟨612, 792, 1, []⟩]
    (to_pdf_values [] (str "2026-10-12")) (by decide) (by decide)

/-! ### Claim theorems: the value resolver -/

/-- Outside labels mode, each of the 13 `pick`-resolved fields of the
output dict is exactly `pick(inputKey, fieldKey)`. -/
theorem to_pdf_values_pick (payload : PyDict) (now : Str) (f k : String)
    (hmem : (f, k) ∈ pickFields)
    (hlab : truthy (pyGet payload "_labels") = false) :
    pyGet (to_pdf_values payload now) f = pick payload k f := by
  fin_cases hmem <;> (unfold to_pdf_values; rw [hlab]; rfl)

/-- C2, amended.  For every non-labels-mode input record and every
`pick`-resolved layout field (all single-line fields except `DATE`): an
absent input key resolves to exactly the field's placeholder, and a
string input resolves to its trimmed value, or to the placeholder when
it is blank after trimming.  (`DATE` is excluded: it falls back to the
current date, not its placeholder, and is passed through untrimmed —
see the counterexample.) -/
theorem resolver_placeholder_or_trimmed (payload : PyDict) (now : Str)
    (f k : String) (hmem : (f, k) ∈ pickFields)
    (hlab : truthy (pyGet payload "_labels") = false) :
    (pyGet payload k = .vNone →
      pyGet (to_pdf_values payload now) f = .vStr (PLACEHOLDERS f)) ∧
    (∀ s, pyGet payload k = .vStr s →
      pyGet (to_pdf_values payload now) f =
        .vStr (if pyStrip s = [] then PLACEHOLDERS f else pyStrip s)) := by
  have hp := to_pdf_values_pick payload now f k hmem hlab
  constructor
  · intro hv
    rw [hp, pick, hv]
    rfl
  · intro s hv
    rw [hp, pick, hv]
    by_cases hs : pyStrip s = [] <;> simp [hs]

/-- Witness for C2 (amended) at a concrete input. -/
theorem resolver_placeholder_or_trimmed_witness :
    (pyGet [("organization", PyVal.vStr (str "  A Co  "))] "organization"
        = .vNone →
      pyGet (to_pdf_values [("organization", PyVal.vStr (str "  A Co  "))]
        (str "2026-10-12")) "ORGANIZATION" = .vStr (PLACEHOLDERS "ORGANIZATION")) ∧
    (∀ s, pyGet [("organization", PyVal.vStr (str "  A Co  "))] "organization"
        = .vStr s →
      pyGet (to_pdf_values [("organization", PyVal.vStr (str "  A Co  "))]
        (str "2026-10-12")) "ORGANIZATION" =
        .vStr (if pyStrip s = [] then PLACEHOLDERS "ORGANIZATION"
               else pyStrip s)) :=
  resolver_placeholder_or_trimmed
    [("organization", PyVal.vStr (str "  A Co  "))] (str "2026-10-12")
    "ORGANIZATION" "organization" (by decide) (by decide)

/-- C2 counterexample.  `DATE` is a layout field (it is in
`FIELD_COORDS`), and a `date` input that is blank after trimming is
*not* mapped to the `DATE` placeholder `"<yyyy-mm-dd>"`: the truthy
blank string `" "` is passed through untrimmed. -/
theorem resolver_date_counterexample :
    pyStrip (str " ") = [] ∧
    ("DATE", (400:ℤ), (690:ℤ)) ∈ FIELD_COORDS ∧
    pyGet (to_pdf_values [("date", PyVal.vStr (str " "))] (str "2026-10-12"))
        "DATE" = .vStr (str " ") ∧
    PyVal.vStr (str " ") ≠ .vStr (PLACEHOLDERS "DATE") := by
  decide

/-- Outside labels mode, the `REMARKS_LIST` entry of the output dict is
exactly `remarksListVal`. -/
theorem to_pdf_values_remarks (payload : PyDict) (now : Str)
    (hlab : truthy (pyGet payload "_labels") = false) :
    pyGet (to_pdf_values payload now) "REMARKS_LIST" = remarksListVal payload := by
  unfold to_pdf_values
  rw [hlab]
  rfl

/-- Unfolding `_draw_remarks_list` on a dict whose `REMARKS_LIST` is a
list: substitute the placeholder row when it is empty, then slice and
lay out. -/
theorem drawRemarksList_of_list (cw : Char → ℤ) (values : PyDict)
    (xs : List Str) (h : pyGet values "REMARKS_LIST" = .vList xs) :
    drawRemarksList cw values =
      .ok (((if xs = [] then [PLACEHOLDERS "REMARKS"] else xs).take
        maxRowsC).map (layoutRow cw)) := by
  have hrows : resolveDrawRows values = .ok xs := by
    rw [resolveDrawRows, h]
  rw [drawRemarksList, hrows]

/-- C6.  For every non-labels-mode input record with no explicit
`remarksList`: a legacy `remarks` string is split on line breaks into
rows with blank-after-trim rows dropped, and those rows (at most
`max_rows` of them) are laid out; if nothing remains — or no remarks
input exists at all — exactly one placeholder row is rendered, so the
rendered remarks area is never blank. -/
theorem remarks_fallback_never_blank (cw : Char → ℤ) (payload : PyDict)
    (now : Str) (hlab : truthy (pyGet payload "_labels") = false)
    (hrl : pyGet payload "remarksList" = .vNone) :
    ∃ rendered,
      drawRemarksList cw (to_pdf_values payload now) = .ok rendered ∧
      rendered ≠ [] ∧
      (pyGet payload "remarks" = .vNone →
        rendered = [layoutRow cw (PLACEHOLDERS "REMARKS")]) ∧
      (∀ s, pyGet payload "remarks" = .vStr s →
        ((splitLines s).filter (fun r => pyStrip r ≠ []) = [] →
          rendered = [layoutRow cw (PLACEHOLDERS "REMARKS")]) ∧
        ((splitLines s).filter (fun r => pyStrip r ≠ []) ≠ [] →
          rendered = (((splitLines s).filter (fun r => pyStrip r ≠ [])).take
            maxRowsC).map (layoutRow cw))) := by
  have hrem := to_pdf_values_remarks payload now hlab
  cases hr : pyGet payload "remarks" with
  | vNone =>
    have hv : remarksListVal payload = .vList [PLACEHOLDERS "REMARKS"] := by
      rw [remarksListVal, hrl, hr]
    refine ⟨[layoutRow cw (PLACEHOLDERS "REMARKS")], ?_, ?_, ?_, ?_⟩
    · rw [drawRemarksList_of_list cw _ [PLACEHOLDERS "REMARKS"] (hrem.trans hv)]
      rfl
    · simp
    · intro _; rfl
    · intro s hs; cases hs
  | vStr s =>
    have hv : remarksListVal payload =
        .vList ((splitLines s).filter (fun r => pyStrip r ≠ [])) := by
      rw [remarksListVal, hrl, hr]
    by_cases hd : (splitLines s).filter (fun r => pyStrip r ≠ []) = []
    · refine ⟨[layoutRow cw (PLACEHOLDERS "REMARKS")], ?_, ?_, ?_, ?_⟩
      · rw [drawRemarksList_of_list cw _ _ (hrem.trans hv), hd]
        rfl
      · simp
      · intro h; cases h
      · intro t ht
        obtain rfl : s = t := by injection ht
        exact ⟨fun _ => rfl, fun hne => absurd hd hne⟩
    · refine ⟨(((splitLines s).filter (fun r => pyStrip r ≠ [])).take
        maxRowsC).map (layoutRow cw), ?_, ?_, ?_, ?_⟩
      · rw [drawRemarksList_of_list cw _ _ (hrem.trans hv), if_neg hd]
      · cases hcase : (splitLines s).filter (fun r => pyStrip r ≠ []) with
        | nil => exact absurd hcase hd
        | cons a t => simp [maxRowsC]
      · intro h; cases h
      · intro t ht
        obtain rfl : s = t := by injection ht
        exact ⟨fun h => absurd h hd, fun _ => rfl⟩
  | vList xs =>
    have hv : remarksListVal payload = .vList xs := by
      rw [remarksListVal, hrl, hr]
    refine ⟨((if xs = [] then [PLACEHOLDERS "REMARKS"] else xs).take
      maxRowsC).map (layoutRow cw), ?_, ?_, ?_, ?_⟩
    · exact drawRemarksList_of_list cw _ xs (hrem.trans hv)
    · by_cases hxs : xs = []
      · subst hxs
        rw [if_pos rfl]
        simp [maxRowsC]
      · rw [if_neg hxs]
        cases xs with
        | nil => exact absurd rfl hxs
        | cons a t => simp [maxRowsC]
    · intro h; cases h
    · intro s hs; cases hs
  | vInt n =>
    have hv : remarksListVal payload = .vList [PLACEHOLDERS "REMARKS"] := by
      rw [remarksListVal, hrl, hr]
    refine ⟨[layoutRow cw (PLACEHOLDERS "REMARKS")], ?_, ?_, ?_, ?_⟩
    · rw [drawRemarksList_of_list cw _ [PLACEHOLDERS "REMARKS"] (hrem.trans hv)]
      rfl
    · simp
    · intro h; cases h
    · intro s hs; cases hs

/-- Witness for C6 at a concrete input: a legacy remarks string whose
lines are all blank after trimming. -/
theorem remarks_fallback_never_blank_witness :
    ∃ rendered,
      drawRemarksList (fun _ => 0)
        (to_pdf_values [("remarks", PyVal.vStr (str " \n "))]
          (str "2026-10-12")) = .ok rendered ∧
      rendered ≠ [] ∧
      (pyGet [("remarks", PyVal.vStr (str " \n "))] "remarks" = .vNone →
        rendered = [layoutRow (fun _ => 0) (PLACEHOLDERS "REMARKS")]) ∧
      (∀ s, pyGet [("remarks", PyVal.vStr (str " \n "))] "remarks" = .vStr s →
        ((splitLines s).filter (fun r => pyStrip r ≠ []) = [] →
          rendered = [layoutRow (fun _ => 0) (PLACEHOLDERS "REMARKS")]) ∧
        ((splitLines s).filter (fun r => pyStrip r ≠ []) ≠ [] →
          rendered = (((splitLines s).filter (fun r => pyStrip r ≠ [])).take
            maxRowsC).map (layoutRow (fun _ => 0)))) :=
  remarks_fallback_never_blank (fun _ => 0)
    [("remarks", PyVal.vStr (str " \n "))] (str "2026-10-12")
    (by decide) (by decide)

/-! ### Claim theorems: purity of the pipeline -/

/-- C7 counterexample.  The pipeline is *not* a function of
`(template bytes, raw record)` alone: with no `date` supplied, the
resolver falls back to the current clock reading, so two runs of the
identical request on different days produce different output
documents. -/
theorem pipeline_clock_counterexample :
    stampPipeline (fun _ => 0) [⟨612, 792, 0, []⟩] [] (str "2026-01-01") ≠
    stampPipeline (fun _ => 0) [⟨612, 792, 0, []⟩] [] (str "2026-01-02") := by
  decide

/-- C7, amended.  The pipeline is a pure function of
`(template, raw record, clock reading)` — it is modelled by a Lean
function, and there is no other state — and whenever the record
supplies a truthy `date`, the clock does not enter at all: runs at
different times produce identical outputs. -/
theorem pipeline_deterministic (cw : Char → ℤ) (tmpl : List Page)
    (payload : PyDict) (now₁ now₂ : Str)
    (h : truthy (pyGet payload "date") = true) :
    stampPipeline cw tmpl payload now₁ = stampPipeline cw tmpl payload now₂ := by
  unfold stampPipeline
  have hv : to_pdf_values payload now₁ = to_pdf_values payload now₂ := by
    unfold to_pdf_values
    by_cases hl : truthy (pyGet payload "_labels") <;>
      simp [hl, dateVal, h]
  rw [hv]

/-- Witness for C7 (amended) at a concrete input. -/
theorem pipeline_deterministic_witness :
    stampPipeline (fun _ => 0) [⟨612, 792, 0, []⟩]
      [("date", PyVal.vStr (str "2026-01-01"))] (str "2026-02-01") =
    stampPipeline (fun _ => 0) [⟨612, 792, 0, []⟩]
      [("date", PyVal.vStr (str "2026-01-01"))] (str "2026-03-01") :=
  pipeline_deterministic (fun _ => 0) [⟨612, 792, 0, []⟩]
    [("date", PyVal.vStr (str "2026-01-01"))]
    (str "2026-02-01") (str "2026-03-01") (by decide)

/-! ### Claim theorems: the output filename -/

/-- C8 counterexample.  The filename attached to the produced document
is `DA2404_<formId>.pdf`, not the claimed `FORM_<formId>.pdf`. -/
theorem filename_counterexample :
    mkFilename (str "abc") = str "DA2404_abc.pdf" ∧
    mkFilename (str "abc") ≠ str "FORM_abc.pdf" := by
  decide

/-- C8, amended.  For every request supplying a nonempty string
`formId`, the filename attached to the produced document bytes is
exactly `"DA2404_" + formId.strip() + ".pdf"`. -/
theorem filename_shape (payload : PyDict) (uuid s : Str)
    (h : pyGet payload "formId" = .vStr s) (hne : s ≠ []) :
    ∃ fid, handlerFormId payload uuid = .ok fid ∧
      mkFilename fid = str "DA2404_" ++ pyStrip s ++ str ".pdf" := by
  refine ⟨pyStrip s, ?_, rfl⟩
  rw [handlerFormId, h]
  simp [hne]

/-- Witness for C8 (amended) at a concrete input. -/
theorem filename_shape_witness :
    ∃ fid, handlerFormId [("formId", PyVal.vStr (str "hq17"))] (str "u-1")
        = .ok fid ∧
      mkFilename fid = str "DA2404_" ++ pyStrip (str "hq17") ++ str ".pdf" :=
  filename_shape [("formId", PyVal.vStr (str "hq17"))] (str "u-1")
    (str "hq17") (by decide) (by decide)

/-! ### Claim theorems: non-string field values -/

/-- C10.  The overlay renderer is total only for string (or absent)
field values: for the concrete record `{"miles": 5}`, the resolver
passes the number through unchanged, `make_overlay` raises on
`.strip()`, and the whole stamping call fails instead of rendering. -/
theorem nonstring_value_raises :
    pyGet (to_pdf_values [("miles", PyVal.vInt 5)] (str "2026-10-12")) "MILES"
      = .vInt 5 ∧
    makeOverlay (fun _ => 0) 612 792
      (to_pdf_values [("miles", PyVal.vInt 5)] (str "2026-10-12"))
      = .error () ∧
    stampPipeline (fun _ => 0) [⟨612, 792, 0, []⟩]
      [("miles", PyVal.vInt 5)] (str "2026-10-12") = .error () := by
  decide
